import Mathlib

/-!
Verification of the EEPROM ring logger (`ee-logs.h`).

The medium is modelled as a total byte map `Mem : Nat → Nat`; `ReadEE` and
`WriteEE` model the external EEPROM driver (byte values reduced mod 256).
Each macro-generated operation of the logger is translated into an explicit
function over the per-log state:

* `LogSt` holds the three per-log globals `Log_CurRec__` (write cursor),
  `Log_CurFlag__` (generation flag, `0` or `0x80`) and `Log_CurReadRec__`
  (read cursor).
* `WrSt` holds the writer statics `a` (active address, `0` when idle),
  `i` (byte offset) and the staging buffer `Log_RecBuf__`.
* `Log_NoblockingWrite` additionally returns the list of byte writes issued
  during the invocation, so that write-count properties can be stated.

Unsigned-char arithmetic is rendered with explicit `% 256`; the
`unsigned int` address arithmetic with explicit `% 65536`.
-/

set_option maxRecDepth 4096

namespace EELogs

abbrev Mem := Nat → Nat

def LOG_FLAG_MASK : Nat := 0x80

def ReadEE (m : Mem) (a : Nat) : Nat := m a % 256

def WriteEE (m : Mem) (a b : Nat) : Mem := fun x => if x = a then b % 256 else m x

def Log_ReadFlag (m : Mem) (a : Nat) : Nat := LOG_FLAG_MASK &&& ReadEE m a

/-- The unsigned-char pattern `if ( r -= (recs)-1 ) r += (recs);` from the
source, yielding the new value of `r`. -/
def bump (recs r : Nat) : Nat :=
  if (r + 256 - (recs - 1)) % 256 = 0 then 0
  else ((r + 256 - (recs - 1)) % 256 + recs) % 256

structure LogSt where
  curRec : Nat
  curFlag : Nat
  curReadRec : Nat
  deriving DecidableEq

structure WrSt where
  a : Nat
  i : Nat
  buf : List Nat
  deriving DecidableEq

/-- `Log_ReadRec__`: copy record `r` to the destination, the last byte with
the service bit stripped (`(unsigned char)~LOG_FLAG_MASK = 0x7f`). -/
def Log_ReadRec (m : Mem) (S base r : Nat) : List Nat :=
  (List.range (S - 1)).map (fun k => ReadEE m ((base + r * S + k) % 65536)) ++
    [0x7f &&& ReadEE m ((base + r * S + (S - 1)) % 65536)]

/-- The scan loop of `Log_InitLog`: starting with `cr`, compare `f` against
`Log_ReadFlag` at address `base + (cr+1)*S` and advance until a mismatch is
found or the fuel (`recs - 1` at the top call) is exhausted.  Returns the
mismatch position (if any) together with the list of addresses read. -/
def initScan (m : Mem) (S base f : Nat) : Nat → Nat → Option Nat × List Nat
  | _cr, 0 => (none, [])
  | cr, fuel + 1 =>
    let a := (base + (cr + 1) * S) % 65536
    if f ^^^ Log_ReadFlag m a ≠ 0 then (some cr, [a])
    else
      let rest := initScan m S base f (cr + 1) fuel
      (rest.1, a :: rest.2)

/-- `Log_InitLog`, instrumented with the list of medium addresses it reads. -/
def Log_InitLogFull (m : Mem) (recs S base : Nat) : LogSt × List Nat :=
  let a0 := (base + S) % 65536
  let f := Log_ReadFlag m a0
  let scan := initScan m S base f 1 (recs - 1)
  match scan.1 with
  | some cr => (⟨cr, f, bump recs cr⟩, a0 :: scan.2)
  | none => (⟨0, f ^^^ LOG_FLAG_MASK, 1⟩, a0 :: scan.2)

def Log_InitLog (m : Mem) (recs S base : Nat) : LogSt :=
  (Log_InitLogFull m recs S base).1

/-- The list of medium addresses read by one run of `Log_InitLog`. -/
def Log_InitReads (m : Mem) (recs S base : Nat) : List Nat :=
  (Log_InitLogFull m recs S base).2

def Log_ReadFirst (m : Mem) (recs S base : Nat) (lg : LogSt) : LogSt × List Nat :=
  let r := bump recs lg.curRec
  ({ lg with curReadRec := r }, Log_ReadRec m S base r)

def Log_ReadLast (m : Mem) (recs S base : Nat) (lg : LogSt) : LogSt × List Nat :=
  let r := if lg.curRec ≠ 0 then lg.curRec - 1 else recs - 1
  ({ lg with curReadRec := r }, Log_ReadRec m S base r)

def Log_ReadNext (m : Mem) (recs S base : Nat) (lg : LogSt) :
    Bool × LogSt × Option (List Nat) :=
  let r := bump recs lg.curReadRec
  if r = lg.curRec then (false, lg, none)
  else (true, { lg with curReadRec := r }, some (Log_ReadRec m S base r))

def Log_ReadPrev (m : Mem) (recs S base : Nat) (lg : LogSt) :
    Bool × LogSt × Option (List Nat) :=
  let r := if lg.curReadRec ≠ 0 then lg.curReadRec - 1 else recs - 1
  if r = lg.curRec then (false, lg, none)
  else (true, { lg with curReadRec := r }, some (Log_ReadRec m S base r))

def Log_ReadCur (m : Mem) (S base : Nat) (lg : LogSt) : List Nat :=
  Log_ReadRec m S base lg.curReadRec

structure WrOut where
  ret : Bool
  lg : LogSt
  w : WrSt
  m : Mem
  writes : List (Nat × Nat)

/-- `Log_NoblockingWrite`.  `ready` is the value returned by `isEEfree()`;
`src = none` models a null source pointer.  The `writes` component records
the `WriteEE` calls issued during this invocation. -/
def Log_NoblockingWrite (recs S base : Nat) (ready : Bool) (src : Option (List Nat))
    (lg : LogSt) (w : WrSt) (m : Mem) : WrOut :=
  if ready then
    if w.a ≠ 0 ∧ w.i ≠ S then
      if w.i = S - 1 then
        -- write the last byte of record
        let rb := 0x7f &&& w.buf.getD w.i 0
        let bt := lg.curFlag ||| rb
        let t := (lg.curRec + 256 - (recs - 1)) % 256
        let r := if t = 0 then 0 else (t + recs) % 256
        let flag2 := if t = 0 then lg.curFlag ^^^ LOG_FLAG_MASK else lg.curFlag
        let rc2 := if lg.curReadRec = r then
                     (if lg.curReadRec = recs - 1 then 0 else lg.curReadRec + 1)
                   else lg.curReadRec
        ⟨false, ⟨r, flag2, rc2⟩, { w with i := S }, WriteEE m w.a bt, [(w.a, bt)]⟩
      else
        let bt := w.buf.getD w.i 0
        ⟨false, lg, { w with a := (w.a + 1) % 65536, i := (w.i + 1) % 256 },
          WriteEE m w.a bt, [(w.a, bt)]⟩
    else
      -- test: (reached with a = 0, or after a = 0 is stored when i = S)
      match src with
      | none => ⟨true, lg, { w with a := 0 }, m, []⟩
      | some s =>
        let a0 := (base + S * lg.curRec) % 65536
        ⟨true, lg, ⟨(a0 + 1) % 65536, 1, 1 :: (s.drop 1).take (S - 1)⟩,
          WriteEE m a0 (s.getD 0 0), [(a0, s.getD 0 0)]⟩
  else ⟨false, lg, w, m, []⟩

/-- Iterate `n` ready polls (`src = null`) of the writer. -/
def pollN (recs S base : Nat) : Nat → LogSt → WrSt → Mem → LogSt × WrSt × Mem
  | 0, lg, w, m => (lg, w, m)
  | n + 1, lg, w, m =>
    let o := Log_NoblockingWrite recs S base true none lg w m
    pollN recs S base n o.lg o.w o.m

/-- One complete record transfer: the starting invocation with source `s`
followed by `S - 1` ready polls. -/
def runTransfer (recs S base : Nat) (s : List Nat) (lg : LogSt) (w : WrSt) (m : Mem) :
    LogSt × WrSt × Mem :=
  let o := Log_NoblockingWrite recs S base true (some s) lg w m
  pollN recs S base (S - 1) o.lg o.w o.m

/-- A sequence of complete record transfers, one per source in the list. -/
def runTransfers (recs S base : Nat) : List (List Nat) → LogSt → WrSt → Mem → LogSt × WrSt × Mem
  | [], lg, w, m => (lg, w, m)
  | s :: rest, lg, w, m =>
    let o := runTransfer recs S base s lg w m
    runTransfers recs S base rest o.1 o.2.1 o.2.2

/-- Repeated `Log_ReadNext` until it fails (bounded by fuel). -/
def nextChain (m : Mem) (recs S base : Nat) : Nat → LogSt → List (List Nat)
  | 0, _lg => []
  | fuel + 1, lg =>
    let o := Log_ReadNext m recs S base lg
    match o.2.2 with
    | none => []
    | some b => b :: nextChain m recs S base fuel o.2.1

def firstThenNexts (m : Mem) (recs S base : Nat) (lg : LogSt) (fuel : Nat) :
    List (List Nat) :=
  let o := Log_ReadFirst m recs S base lg
  o.2 :: nextChain m recs S base fuel o.1

/-- Repeated `Log_ReadPrev` until it fails (bounded by fuel). -/
def prevChain (m : Mem) (recs S base : Nat) : Nat → LogSt → List (List Nat)
  | 0, _lg => []
  | fuel + 1, lg =>
    let o := Log_ReadPrev m recs S base lg
    match o.2.2 with
    | none => []
    | some b => b :: prevChain m recs S base fuel o.2.1

def lastThenPrevs (m : Mem) (recs S base : Nat) (lg : LogSt) (fuel : Nat) :
    List (List Nat) :=
  let o := Log_ReadLast m recs S base lg
  o.2 :: prevChain m recs S base fuel o.1

/-- The record delivered by `Log_ReadRec` from a slot into which the writer
transferred source `s`: the source bytes, the last one with bit 7 cleared. -/
def writtenRec (S : Nat) (s : List Nat) : List Nat :=
  (List.range (S - 1)).map (fun c => s.getD c 0 % 256) ++ [0x7f &&& s.getD (S - 1) 0]

/-! ### Basic facts about the embedding -/

theorem readEE_lt (m : Mem) (a : Nat) : ReadEE m a < 256 :=
  Nat.mod_lt _ (by norm_num)

theorem readFlag_cases (m : Mem) (a : Nat) :
    Log_ReadFlag m a = 0 ∨ Log_ReadFlag m a = 128 := by
  have h : ∀ x, x < 256 → (128 &&& x = 0 ∨ 128 &&& x = 128) := by decide
  exact h _ (readEE_lt m a)

theorem bump_eq {recs r : Nat} (h2 : 2 ≤ recs) (h255 : recs ≤ 255) (hr : r < recs) :
    bump recs r = (r + 1) % recs := by
  unfold bump
  by_cases hlast : r = recs - 1
  · have h0 : (r + 256 - (recs - 1)) % 256 = 0 := by omega
    rw [if_pos h0]
    have h1 : r + 1 = recs := by omega
    rw [h1, Nat.mod_self]
  · have h1 : (r + 256 - (recs - 1)) % 256 = r + 257 - recs := by omega
    have hne : ¬((r + 256 - (recs - 1)) % 256 = 0) := by omega
    rw [if_neg hne, h1]
    have h3 : (r + 257 - recs + recs) % 256 = r + 1 := by omega
    rw [h3, Nat.mod_eq_of_lt (by omega)]

theorem prevIdx_eq {recs r : Nat} (h1 : 1 ≤ recs) (hr : r < recs) :
    (if r ≠ 0 then r - 1 else recs - 1) = (r + recs - 1) % recs := by
  by_cases h : r = 0
  · subst h
    rw [if_neg (by simp)]
    have h2 : 0 + recs - 1 = recs - 1 := by omega
    rw [h2, Nat.mod_eq_of_lt (by omega)]
  · rw [if_pos h]
    have h2 : r + recs - 1 = recs + (r - 1) := by omega
    rw [h2, Nat.add_mod_left, Nat.mod_eq_of_lt (by omega)]

theorem mod_add_cancel {n w a b : Nat} (ha : a < n) (hb : b < n)
    (h : (w + a) % n = (w + b) % n) : a = b := by
  have h2 : a ≡ b [MOD n] := Nat.ModEq.add_left_cancel' w h
  rwa [Nat.ModEq, Nat.mod_eq_of_lt ha, Nat.mod_eq_of_lt hb] at h2

theorem readEE_writeEE (m : Mem) (a b x : Nat) :
    ReadEE (WriteEE m a b) x = if x = a then b % 256 else ReadEE m x := by
  unfold ReadEE WriteEE
  by_cases h : x = a
  · rw [if_pos h, if_pos h]
    omega
  · rw [if_neg h, if_neg h]

theorem slot_addr_lt {recs S base r c : Nat} (h65 : base + recs * S < 65536)
    (hr : r < recs) (hc : c < S) : base + r * S + c < 65536 := by
  have h : (r + 1) * S ≤ recs * S := Nat.mul_le_mul_right S (by omega)
  have h2 : r * S + S ≤ recs * S := by
    calc r * S + S = (r + 1) * S := by ring
    _ ≤ recs * S := h
  omega

theorem readRec_congr {m1 m2 : Mem} {S base r : Nat} (hS : 1 ≤ S)
    (h : ∀ c, c < S → m1 ((base + r * S + c) % 65536) = m2 ((base + r * S + c) % 65536)) :
    Log_ReadRec m1 S base r = Log_ReadRec m2 S base r := by
  unfold Log_ReadRec ReadEE
  have h1 : (List.range (S - 1)).map (fun k => m1 ((base + r * S + k) % 65536) % 256) =
      (List.range (S - 1)).map (fun k => m2 ((base + r * S + k) % 65536) % 256) :=
    List.map_congr_left (fun k hk => by
      have hk2 := List.mem_range.mp hk
      rw [h k (by omega)])
  rw [h1, h (S - 1) (by omega)]

/-! ### Writer state machine: single steps and full transfers -/

theorem write_step_probe (recs S base : Nat) (lg : LogSt) (w : WrSt) (m : Mem)
    (hcond : ¬(w.a ≠ 0 ∧ w.i ≠ S)) :
    Log_NoblockingWrite recs S base true none lg w m =
      ⟨true, lg, { w with a := 0 }, m, []⟩ := by
  unfold Log_NoblockingWrite
  rw [if_pos rfl, if_neg hcond]

theorem write_step_start (recs S base : Nat) (s : List Nat) (lg : LogSt) (w : WrSt)
    (m : Mem) (hcond : ¬(w.a ≠ 0 ∧ w.i ≠ S)) :
    Log_NoblockingWrite recs S base true (some s) lg w m =
      ⟨true, lg,
        ⟨((base + S * lg.curRec) % 65536 + 1) % 65536, 1, 1 :: (s.drop 1).take (S - 1)⟩,
        WriteEE m ((base + S * lg.curRec) % 65536) (s.getD 0 0),
        [((base + S * lg.curRec) % 65536, s.getD 0 0)]⟩ := by
  unfold Log_NoblockingWrite
  rw [if_pos rfl, if_neg hcond]

theorem write_step_mid (recs S base : Nat) (src : Option (List Nat)) (lg : LogSt)
    (w : WrSt) (m : Mem) (ha : w.a ≠ 0) (hi : w.i ≠ S) (hi2 : w.i ≠ S - 1) :
    Log_NoblockingWrite recs S base true src lg w m =
      ⟨false, lg, { w with a := (w.a + 1) % 65536, i := (w.i + 1) % 256 },
        WriteEE m w.a (w.buf.getD w.i 0), [(w.a, w.buf.getD w.i 0)]⟩ := by
  unfold Log_NoblockingWrite
  rw [if_pos rfl, if_pos ⟨ha, hi⟩, if_neg hi2]

theorem write_step_final (recs S base : Nat) (src : Option (List Nat)) (lg : LogSt)
    (w : WrSt) (m : Mem) (ha : w.a ≠ 0) (hiS : w.i ≠ S) (hi : w.i = S - 1) :
    Log_NoblockingWrite recs S base true src lg w m =
      ⟨false,
        ⟨(if (lg.curRec + 256 - (recs - 1)) % 256 = 0 then 0
          else ((lg.curRec + 256 - (recs - 1)) % 256 + recs) % 256),
         (if (lg.curRec + 256 - (recs - 1)) % 256 = 0 then lg.curFlag ^^^ LOG_FLAG_MASK
          else lg.curFlag),
         (if lg.curReadRec = (if (lg.curRec + 256 - (recs - 1)) % 256 = 0 then 0
              else ((lg.curRec + 256 - (recs - 1)) % 256 + recs) % 256) then
            (if lg.curReadRec = recs - 1 then 0 else lg.curReadRec + 1)
          else lg.curReadRec)⟩,
        { w with i := S },
        WriteEE m w.a (lg.curFlag ||| (0x7f &&& w.buf.getD w.i 0)),
        [(w.a, lg.curFlag ||| (0x7f &&& w.buf.getD w.i 0))]⟩ := by
  unfold Log_NoblockingWrite
  rw [if_pos rfl, if_pos ⟨ha, hiS⟩, if_pos hi]

theorem pollN_add (recs S base : Nat) (a b : Nat) :
    ∀ (lg : LogSt) (w : WrSt) (m : Mem),
    pollN recs S base (a + b) lg w m =
      pollN recs S base b (pollN recs S base a lg w m).1
        (pollN recs S base a lg w m).2.1 (pollN recs S base a lg w m).2.2 := by
  induction a with
  | zero =>
    intro lg w m
    rw [Nat.zero_add]
    simp only [pollN]
  | succ a ih =>
    intro lg w m
    have h : a + 1 + b = (a + b) + 1 := by omega
    rw [h]
    simp only [pollN]
    exact ih _ _ _

theorem pollN_mid (recs S base : Nat) (h2S : 2 ≤ S) (hS255 : S ≤ 255)
    (h65 : base + recs * S < 65536) (lg : LogSt) (hwc : lg.curRec < recs)
    (buf : List Nat) :
    ∀ (k j : Nat) (m : Mem), 1 ≤ j → j + k ≤ S - 1 →
      pollN recs S base k lg ⟨base + S * lg.curRec + j, j, buf⟩ m =
        (lg, ⟨base + S * lg.curRec + j + k, j + k, buf⟩,
          fun x =>
            if base + S * lg.curRec + j ≤ x ∧ x < base + S * lg.curRec + j + k
            then buf.getD (x - (base + S * lg.curRec)) 0 % 256 else m x) := by
  intro k
  induction k with
  | zero =>
    intro j m hj hjk
    have hm : (fun x =>
        if base + S * lg.curRec + j ≤ x ∧ x < base + S * lg.curRec + j + 0
        then buf.getD (x - (base + S * lg.curRec)) 0 % 256 else m x) = m := by
      funext x
      rw [if_neg (by omega)]
    rw [hm]
    rfl
  | succ k ih =>
    intro j m hj hjk
    have hmc : lg.curRec * S = S * lg.curRec := Nat.mul_comm _ _
    have ha : base + S * lg.curRec + j + 1 < 65536 := by
      have h := @slot_addr_lt recs S base lg.curRec (j + 1) h65 hwc (by omega)
      omega
    have hstep := write_step_mid recs S base none lg
      ⟨base + S * lg.curRec + j, j, buf⟩ m
      (by show base + S * lg.curRec + j ≠ 0; omega)
      (by show j ≠ S; omega)
      (by show j ≠ S - 1; omega)
    simp only [pollN]
    rw [hstep]
    have hw : ({ (⟨base + S * lg.curRec + j, j, buf⟩ : WrSt) with
        a := ((⟨base + S * lg.curRec + j, j, buf⟩ : WrSt).a + 1) % 65536,
        i := ((⟨base + S * lg.curRec + j, j, buf⟩ : WrSt).i + 1) % 256 } : WrSt) =
        ⟨base + S * lg.curRec + (j + 1), j + 1, buf⟩ := by
      have h1 : (base + S * lg.curRec + j + 1) % 65536 = base + S * lg.curRec + (j + 1) := by
        rw [Nat.mod_eq_of_lt ha]
        omega
      have h2 : (j + 1) % 256 = j + 1 := Nat.mod_eq_of_lt (by omega)
      simp only [WrSt.mk.injEq]
      exact ⟨h1, h2, trivial⟩
    rw [hw]
    rw [ih (j + 1) _ (by omega) (by omega)]
    simp only [Prod.mk.injEq]
    refine ⟨trivial, ?_, ?_⟩
    · simp only [WrSt.mk.injEq]
      refine ⟨by omega, by omega, trivial⟩
    · funext x
      by_cases hx : x = base + S * lg.curRec + j
      · subst hx
        have c1 : ¬(base + S * lg.curRec + (j + 1) ≤ base + S * lg.curRec + j ∧
            base + S * lg.curRec + j < base + S * lg.curRec + (j + 1) + k) := by omega
        have c2 : base + S * lg.curRec + j ≤ base + S * lg.curRec + j ∧
            base + S * lg.curRec + j < base + S * lg.curRec + j + (k + 1) := by omega
        have hj2 : base + S * lg.curRec + j - (base + S * lg.curRec) = j := by omega
        rw [if_neg c1, if_pos c2, hj2]
        unfold WriteEE
        exact if_pos rfl
      · by_cases hin : base + S * lg.curRec + (j + 1) ≤ x ∧
            x < base + S * lg.curRec + (j + 1) + k
        · rw [if_pos hin, if_pos (show base + S * lg.curRec + j ≤ x ∧
            x < base + S * lg.curRec + j + (k + 1) by omega)]
        · rw [if_neg hin, if_neg (show ¬(base + S * lg.curRec + j ≤ x ∧
            x < base + S * lg.curRec + j + (k + 1)) by omega)]
          unfold WriteEE
          rw [if_neg hx]

theorem bufStart_getD (S : Nat) (s : List Nat) (c : Nat) (hc1 : 1 ≤ c)
    (hc2 : c ≤ S - 1) :
    (1 :: (s.drop 1).take (S - 1)).getD c 0 = s.getD c 0 := by
  obtain ⟨c2, rfl⟩ : ∃ c2, c = c2 + 1 := ⟨c - 1, by omega⟩
  rw [List.getD_cons_succ, List.getD_eq_getElem?_getD, List.getD_eq_getElem?_getD,
    List.getElem?_take, if_pos (by omega), List.getElem?_drop]
  rw [Nat.add_comm 1 c2]

/-- One complete transfer from an idle (or done-pending) writer: the
resulting log state advances the write cursor by one (mod `recs`), flips the
flag exactly on the wrap, nudges the read cursor off the new write cursor,
leaves the writer done-pending, and rewrites exactly the `S` bytes of the
target slot, the last one carrying the generation flag. -/
theorem runTransfer_spec (recs S base : Nat) (h2r : 2 ≤ recs) (hr255 : recs ≤ 255)
    (h2S : 2 ≤ S) (hS255 : S ≤ 255) (h65 : base + recs * S < 65536)
    (s : List Nat) (lg : LogSt) (w : WrSt) (m : Mem)
    (hwc : lg.curRec < recs) (hidle : w.a = 0 ∨ w.i = S) :
    runTransfer recs S base s lg w m =
      (⟨(lg.curRec + 1) % recs,
        (if lg.curRec = recs - 1 then lg.curFlag ^^^ 128 else lg.curFlag),
        (if lg.curReadRec = (lg.curRec + 1) % recs then
           (if lg.curReadRec = recs - 1 then 0 else lg.curReadRec + 1)
         else lg.curReadRec)⟩,
       ⟨base + S * lg.curRec + (S - 1), S, 1 :: (s.drop 1).take (S - 1)⟩,
       fun x =>
         if base + S * lg.curRec ≤ x ∧ x < base + S * lg.curRec + S then
           (if x = base + S * lg.curRec + (S - 1) then
              (lg.curFlag ||| (0x7f &&& s.getD (S - 1) 0)) % 256
            else s.getD (x - (base + S * lg.curRec)) 0 % 256)
         else m x) := by
  have hmc : lg.curRec * S = S * lg.curRec := Nat.mul_comm _ _
  have hA0b : base + S * lg.curRec < 65536 := by
    have h := @slot_addr_lt recs S base lg.curRec 0 h65 hwc (by omega)
    omega
  have hA1b : base + S * lg.curRec + 1 < 65536 := by
    have h := @slot_addr_lt recs S base lg.curRec 1 h65 hwc (by omega)
    omega
  have hA0 : (base + S * lg.curRec) % 65536 = base + S * lg.curRec :=
    Nat.mod_eq_of_lt hA0b
  have hcond : ¬(w.a ≠ 0 ∧ w.i ≠ S) := by
    rcases hidle with h | h
    · intro hc; exact hc.1 h
    · intro hc; exact hc.2 h
  unfold runTransfer
  rw [write_step_start recs S base s lg w m hcond]
  simp only
  rw [hA0]
  rw [Nat.mod_eq_of_lt hA1b]
  have hS1 : S - 1 = S - 2 + 1 := by omega
  rw [hS1]
  rw [pollN_add recs S base (S - 2) 1]
  rw [pollN_mid recs S base h2S hS255 h65 lg hwc (1 :: (s.drop 1).take (S - 2 + 1))
    (S - 2) 1 _ (by omega) (by omega)]
  simp only
  simp only [pollN]
  rw [write_step_final recs S base none lg
    ⟨base + S * lg.curRec + 1 + (S - 2), 1 + (S - 2), 1 :: (s.drop 1).take (S - 2 + 1)⟩ _
    (by show base + S * lg.curRec + 1 + (S - 2) ≠ 0; omega)
    (by show 1 + (S - 2) ≠ S; omega)
    (by show 1 + (S - 2) = S - 1; omega)]
  simp only
  have hbump : (if (lg.curRec + 256 - (recs - 1)) % 256 = 0 then 0
      else ((lg.curRec + 256 - (recs - 1)) % 256 + recs) % 256) =
      (lg.curRec + 1) % recs := bump_eq h2r hr255 hwc
  rw [hbump]
  have hflag : (if (lg.curRec + 256 - (recs - 1)) % 256 = 0 then
      lg.curFlag ^^^ LOG_FLAG_MASK else lg.curFlag) =
      (if lg.curRec = recs - 1 then lg.curFlag ^^^ 128 else lg.curFlag) := by
    by_cases hw2 : lg.curRec = recs - 1
    · rw [if_pos (by omega), if_pos hw2]
      rfl
    · rw [if_neg (by omega), if_neg hw2]
  rw [hflag]
  have hbuf : (1 :: (s.drop 1).take (S - 2 + 1)).getD (1 + (S - 2)) 0 =
      s.getD (S - 2 + 1) 0 := by
    have h := bufStart_getD S s (1 + (S - 2)) (by omega) (by omega)
    rw [hS1] at h
    rw [show (1 + (S - 2)) = S - 2 + 1 from by omega] at h ⊢
    exact h
  rw [hbuf]
  simp only [Prod.mk.injEq]
  refine ⟨trivial, ?_, ?_⟩
  · simp only [WrSt.mk.injEq]
    exact ⟨by omega, trivial, trivial⟩
  · funext x
    unfold WriteEE
    by_cases hx1 : x = base + S * lg.curRec + 1 + (S - 2)
    · rw [if_pos hx1,
        if_pos (show base + S * lg.curRec ≤ x ∧ x < base + S * lg.curRec + S from by omega),
        if_pos (show x = base + S * lg.curRec + (S - 2 + 1) from by omega)]
    · rw [if_neg hx1]
      dsimp only
      by_cases hx2 : base + S * lg.curRec + 1 ≤ x ∧
          x < base + S * lg.curRec + 1 + (S - 2)
      · rw [if_pos hx2,
          if_pos (show base + S * lg.curRec ≤ x ∧ x < base + S * lg.curRec + S from by omega),
          if_neg (show ¬(x = base + S * lg.curRec + (S - 2 + 1)) from by omega)]
        rw [show S - 2 + 1 = S - 1 from by omega]
        rw [bufStart_getD S s (x - (base + S * lg.curRec)) (by omega) (by omega)]
      · rw [if_neg hx2]
        by_cases hx3 : x = base + S * lg.curRec
        · rw [if_pos hx3,
            if_pos (show base + S * lg.curRec ≤ x ∧ x < base + S * lg.curRec + S from by omega),
            if_neg (show ¬(x = base + S * lg.curRec + (S - 2 + 1)) from by omega),
            show x - (base + S * lg.curRec) = 0 from by omega]
        · rw [if_neg hx3, if_neg (show ¬(base + S * lg.curRec ≤ x ∧
            x < base + S * lg.curRec + S) from by omega)]

/-! ### Masking facts for the final record byte -/

theorem mask_byte_0 : ∀ x, x < 128 → 127 &&& ((0 ||| x) % 256 % 256) = x := by decide

theorem mask_byte_128 : ∀ x, x < 128 → 127 &&& ((128 ||| x) % 256 % 256) = x := by decide

theorem slot_disjoint {S wc r c : Nat} (hne : r ≠ wc) (hc : c < S) (base : Nat) :
    ¬(base + S * wc ≤ base + r * S + c ∧ base + r * S + c < base + S * wc + S) := by
  have h1 : (r + 1) * S = r * S + S := by ring
  have h2 : (wc + 1) * S = wc * S + S := by ring
  have hmc : S * wc = wc * S := Nat.mul_comm _ _
  rcases Nat.lt_or_ge r wc with h | h
  · have h3 : (r + 1) * S ≤ wc * S := Nat.mul_le_mul_right S (by omega)
    omega
  · have hgt : wc < r := by omega
    have h3 : (wc + 1) * S ≤ r * S := Nat.mul_le_mul_right S (by omega)
    omega

/-- A completed transfer leaves every slot other than the target intact. -/
theorem runTransfer_readRec_other (recs S base : Nat) (h2r : 2 ≤ recs)
    (hr255 : recs ≤ 255) (h2S : 2 ≤ S) (hS255 : S ≤ 255) (h65 : base + recs * S < 65536)
    (s : List Nat) (lg : LogSt) (w : WrSt) (m : Mem)
    (hwc : lg.curRec < recs) (hidle : w.a = 0 ∨ w.i = S)
    (r : Nat) (hr : r < recs) (hne : r ≠ lg.curRec) :
    Log_ReadRec (runTransfer recs S base s lg w m).2.2 S base r =
      Log_ReadRec m S base r := by
  rw [runTransfer_spec recs S base h2r hr255 h2S hS255 h65 s lg w m hwc hidle]
  apply readRec_congr (by omega)
  intro c hc
  have haddr : (base + r * S + c) % 65536 = base + r * S + c :=
    Nat.mod_eq_of_lt (slot_addr_lt h65 hr hc)
  rw [haddr]
  dsimp only
  rw [if_neg (slot_disjoint hne hc base)]

/-- A completed transfer writes the source record into the target slot: the
decoded slot afterwards is the source with bit 7 of its last byte cleared. -/
theorem runTransfer_readRec_self (recs S base : Nat) (h2r : 2 ≤ recs)
    (hr255 : recs ≤ 255) (h2S : 2 ≤ S) (hS255 : S ≤ 255) (h65 : base + recs * S < 65536)
    (s : List Nat) (lg : LogSt) (w : WrSt) (m : Mem)
    (hwc : lg.curRec < recs) (hidle : w.a = 0 ∨ w.i = S)
    (hflag : lg.curFlag = 0 ∨ lg.curFlag = 128) :
    Log_ReadRec (runTransfer recs S base s lg w m).2.2 S base lg.curRec =
      writtenRec S s := by
  rw [runTransfer_spec recs S base h2r hr255 h2S hS255 h65 s lg w m hwc hidle]
  dsimp only
  have hmc : lg.curRec * S = S * lg.curRec := Nat.mul_comm _ _
  unfold Log_ReadRec writtenRec
  congr 1
  · apply List.map_congr_left
    intro k hk
    have hk2 : k < S - 1 := List.mem_range.mp hk
    have haddr : (base + lg.curRec * S + k) % 65536 = base + lg.curRec * S + k :=
      Nat.mod_eq_of_lt (slot_addr_lt h65 hwc (by omega))
    unfold ReadEE
    rw [haddr]
    dsimp only
    rw [if_pos (show base + S * lg.curRec ≤ base + lg.curRec * S + k ∧
        base + lg.curRec * S + k < base + S * lg.curRec + S from by omega)]
    rw [if_neg (show ¬(base + lg.curRec * S + k = base + S * lg.curRec + (S - 1))
        from by omega)]
    rw [show base + lg.curRec * S + k - (base + S * lg.curRec) = k from by omega]
    omega
  · have haddr : (base + lg.curRec * S + (S - 1)) % 65536 =
        base + lg.curRec * S + (S - 1) :=
      Nat.mod_eq_of_lt (slot_addr_lt h65 hwc (by omega))
    unfold ReadEE
    rw [haddr]
    dsimp only
    rw [if_pos (show base + S * lg.curRec ≤ base + lg.curRec * S + (S - 1) ∧
        base + lg.curRec * S + (S - 1) < base + S * lg.curRec + S from by omega)]
    rw [if_pos (show base + lg.curRec * S + (S - 1) = base + S * lg.curRec + (S - 1)
        from by omega)]
    have hx : 127 &&& s.getD (S - 1) 0 < 128 := by
      have h := @Nat.and_le_left 127 (s.getD (S - 1) 0)
      omega
    rcases hflag with h | h <;> rw [h]
    · rw [mask_byte_0 (127 &&& s.getD (S - 1) 0) hx]
    · rw [mask_byte_128 (127 &&& s.getD (S - 1) 0) hx]

/-- State and medium after a sequence of complete transfers: the write
cursor advances by the number of transfers (mod `recs`), the flag flips
exactly when the cursor passes the wrap, untouched slots keep their records,
and the `j`-th transfer's record sits in slot `curRec + j (mod recs)`. -/
theorem runTransfers_spec (recs S base : Nat) (h2r : 2 ≤ recs) (hr255 : recs ≤ 255)
    (h2S : 2 ≤ S) (hS255 : S ≤ 255) (h65 : base + recs * S < 65536) :
    ∀ (ss : List (List Nat)) (lg : LogSt) (w : WrSt) (m : Mem),
      lg.curRec < recs → (lg.curFlag = 0 ∨ lg.curFlag = 128) →
      (w.a = 0 ∨ w.i = S) → ss.length ≤ recs →
      (runTransfers recs S base ss lg w m).1.curRec = (lg.curRec + ss.length) % recs ∧
      (runTransfers recs S base ss lg w m).1.curFlag =
        (if lg.curRec + ss.length < recs then lg.curFlag else lg.curFlag ^^^ 128) ∧
      ((runTransfers recs S base ss lg w m).2.1.a = 0 ∨
        (runTransfers recs S base ss lg w m).2.1.i = S) ∧
      (∀ r, r < recs → (∀ j, j < ss.length → r ≠ (lg.curRec + j) % recs) →
        Log_ReadRec (runTransfers recs S base ss lg w m).2.2 S base r =
          Log_ReadRec m S base r) ∧
      (∀ j, j < ss.length →
        Log_ReadRec (runTransfers recs S base ss lg w m).2.2 S base
          ((lg.curRec + j) % recs) = writtenRec S (ss.getD j [])) := by
  intro ss
  induction ss with
  | nil =>
    intro lg w m hwc hflag hidle hlen
    refine ⟨?_, ?_, ?_, ?_, ?_⟩
    · show lg.curRec = (lg.curRec + ([] : List (List Nat)).length) % recs
      rw [List.length_nil, Nat.add_zero, Nat.mod_eq_of_lt hwc]
    · show lg.curFlag = _
      rw [List.length_nil, if_pos (by omega)]
    · exact hidle
    · intro r hr hun
      rfl
    · intro j hj
      exact absurd hj (by simp)
  | cons s rest ih =>
    intro lg w m hwc hflag hidle hlen
    simp only [List.length_cons] at hlen ⊢
    have ht := runTransfer_spec recs S base h2r hr255 h2S hS255 h65 s lg w m hwc hidle
    have hc1 : (runTransfer recs S base s lg w m).1.curRec = (lg.curRec + 1) % recs := by
      rw [ht]
    have hcf : (runTransfer recs S base s lg w m).1.curFlag =
        (if lg.curRec = recs - 1 then lg.curFlag ^^^ 128 else lg.curFlag) := by
      rw [ht]
    have h1 : (runTransfer recs S base s lg w m).1.curRec < recs := by
      rw [hc1]
      exact Nat.mod_lt _ (by omega)
    have h2 : (runTransfer recs S base s lg w m).1.curFlag = 0 ∨
        (runTransfer recs S base s lg w m).1.curFlag = 128 := by
      rw [hcf]
      rcases hflag with h | h <;> rw [h] <;> by_cases hw2 : lg.curRec = recs - 1
      · rw [if_pos hw2]; right; rfl
      · rw [if_neg hw2]; left; rfl
      · rw [if_pos hw2]; left; rfl
      · rw [if_neg hw2]; right; rfl
    have h3 : (runTransfer recs S base s lg w m).2.1.a = 0 ∨
        (runTransfer recs S base s lg w m).2.1.i = S := by
      rw [ht]
      exact Or.inr rfl
    obtain ⟨hI1, hI2, hI3, hI4, hI5⟩ := ih (runTransfer recs S base s lg w m).1
      (runTransfer recs S base s lg w m).2.1 (runTransfer recs S base s lg w m).2.2
      h1 h2 h3 (by omega)
    have hrw : runTransfers recs S base (s :: rest) lg w m =
        runTransfers recs S base rest (runTransfer recs S base s lg w m).1
          (runTransfer recs S base s lg w m).2.1
          (runTransfer recs S base s lg w m).2.2 := rfl
    rw [hrw]
    refine ⟨?_, ?_, hI3, ?_, ?_⟩
    · rw [hI1, hc1, Nat.mod_add_mod,
        show lg.curRec + 1 + rest.length = lg.curRec + (rest.length + 1) from by omega]
    · rw [hI2, hc1, hcf]
      by_cases hw2 : lg.curRec = recs - 1
      · rw [if_pos hw2]
        have hz : (lg.curRec + 1) % recs = 0 := by
          rw [show lg.curRec + 1 = recs from by omega, Nat.mod_self]
        rw [hz, if_pos (by omega), if_neg (by omega)]
      · rw [if_neg hw2]
        have hz : (lg.curRec + 1) % recs = lg.curRec + 1 :=
          Nat.mod_eq_of_lt (by omega)
        rw [hz, show lg.curRec + 1 + rest.length = lg.curRec + (rest.length + 1)
          from by omega]
    · intro r hr hun
      have hne0 : r ≠ lg.curRec := by
        have h := hun 0 (by omega)
        rwa [Nat.add_zero, Nat.mod_eq_of_lt hwc] at h
      have hstep : ∀ j, j < rest.length →
          r ≠ ((runTransfer recs S base s lg w m).1.curRec + j) % recs := by
        intro j hj
        rw [hc1, Nat.mod_add_mod,
          show lg.curRec + 1 + j = lg.curRec + (j + 1) from by omega]
        exact hun (j + 1) (by omega)
      rw [hI4 r hr hstep]
      exact runTransfer_readRec_other recs S base h2r hr255 h2S hS255 h65 s lg w m
        hwc hidle r hr hne0
    · intro j hj
      cases j with
      | zero =>
        rw [Nat.add_zero, Nat.mod_eq_of_lt hwc]
        have hun : ∀ j2, j2 < rest.length →
            lg.curRec ≠ ((runTransfer recs S base s lg w m).1.curRec + j2) % recs := by
          intro j2 hj2
          rw [hc1, Nat.mod_add_mod,
            show lg.curRec + 1 + j2 = lg.curRec + (j2 + 1) from by omega]
          intro heq
          have heq2 : (lg.curRec + 0) % recs = (lg.curRec + (j2 + 1)) % recs := by
            rw [Nat.add_zero, Nat.mod_eq_of_lt hwc]
            exact heq
          have := mod_add_cancel (by omega) (by omega) heq2
          omega
        rw [hI4 lg.curRec hwc hun]
        have hself := runTransfer_readRec_self recs S base h2r hr255 h2S hS255 h65
          s lg w m hwc hidle hflag
        rw [hself]
        rfl
      | succ j2 =>
        have hidx : (lg.curRec + (j2 + 1)) % recs =
            ((runTransfer recs S base s lg w m).1.curRec + j2) % recs := by
          rw [hc1, Nat.mod_add_mod,
            show lg.curRec + 1 + j2 = lg.curRec + (j2 + 1) from by omega]
        rw [hidx, hI5 j2 (by omega)]
        rfl

/-! ### Cursor traversal: the chains visit the readable window in ring order -/

theorem nextChain_spec (m : Mem) (recs S base : Nat) (h2r : 2 ≤ recs)
    (hr255 : recs ≤ 255) :
    ∀ (fuel t : Nat) (lg : LogSt), lg.curRec < recs → 1 ≤ t → t ≤ recs - 1 →
      lg.curReadRec = (lg.curRec + t) % recs → recs - 1 - t ≤ fuel →
      nextChain m recs S base fuel lg =
        (List.range (recs - 1 - t)).map
          (fun j => Log_ReadRec m S base ((lg.curRec + t + 1 + j) % recs)) := by
  intro fuel
  induction fuel with
  | zero =>
    intro t lg hwc ht1 ht2 hrc hfuel
    rw [show recs - 1 - t = 0 from by omega]
    rfl
  | succ fuel ih =>
    intro t lg hwc ht1 ht2 hrc hfuel
    have hrc_lt : lg.curReadRec < recs := by
      rw [hrc]
      exact Nat.mod_lt _ (by omega)
    have hb : bump recs lg.curReadRec = (lg.curRec + t + 1) % recs := by
      rw [bump_eq h2r hr255 hrc_lt, hrc, Nat.mod_add_mod]
    by_cases hlast : t = recs - 1
    · have hcand : (lg.curRec + t + 1) % recs = lg.curRec := by
        rw [show lg.curRec + t + 1 = lg.curRec + recs from by omega,
          Nat.add_mod_right, Nat.mod_eq_of_lt hwc]
      have ho : Log_ReadNext m recs S base lg = (false, lg, none) := by
        unfold Log_ReadNext
        rw [hb, if_pos hcand]
      rw [show recs - 1 - t = 0 from by omega]
      simp only [nextChain]
      rw [ho]
      rfl
    · have hcand : (lg.curRec + t + 1) % recs ≠ lg.curRec := by
        intro heq
        have heq2 : (lg.curRec + (t + 1)) % recs = (lg.curRec + 0) % recs := by
          rw [← Nat.add_assoc, heq, Nat.add_zero, Nat.mod_eq_of_lt hwc]
        have := mod_add_cancel (show t + 1 < recs by omega)
          (show 0 < recs by omega) heq2
        omega
      have ho : Log_ReadNext m recs S base lg =
          (true, { lg with curReadRec := (lg.curRec + t + 1) % recs },
            some (Log_ReadRec m S base ((lg.curRec + t + 1) % recs))) := by
        unfold Log_ReadNext
        rw [hb, if_neg hcand]
      simp only [nextChain]
      rw [ho]
      simp only
      rw [ih (t + 1) { lg with curReadRec := (lg.curRec + t + 1) % recs }
        hwc (by omega) (by omega)
        (by show (lg.curRec + t + 1) % recs = (lg.curRec + (t + 1)) % recs
            rw [← Nat.add_assoc])
        (by omega)]
      simp only
      apply List.ext_getElem
      · simp only [List.length_cons, List.length_map, List.length_range]
        omega
      · intro n h1 h2
        simp only [List.length_cons, List.length_map, List.length_range] at h1 h2
        cases n with
        | zero =>
          simp only [List.getElem_cons_zero, List.getElem_map, List.getElem_range]
          try rfl
          try (congr 1; congr 1; omega)
        | succ k =>
          simp only [List.getElem_cons_succ, List.getElem_map, List.getElem_range]
          try rfl
          try (congr 1; congr 1; omega)

theorem prevChain_spec (m : Mem) (recs S base : Nat) (h2r : 2 ≤ recs)
    (hr255 : recs ≤ 255) :
    ∀ (fuel t : Nat) (lg : LogSt), lg.curRec < recs → 1 ≤ t → t ≤ recs - 1 →
      lg.curReadRec = (lg.curRec + t) % recs → t - 1 ≤ fuel →
      prevChain m recs S base fuel lg =
        (List.range (t - 1)).map
          (fun j => Log_ReadRec m S base ((lg.curRec + t - 1 - j) % recs)) := by
  intro fuel
  induction fuel with
  | zero =>
    intro t lg hwc ht1 ht2 hrc hfuel
    rw [show t - 1 = 0 from by omega]
    rfl
  | succ fuel ih =>
    intro t lg hwc ht1 ht2 hrc hfuel
    have hrc_lt : lg.curReadRec < recs := by
      rw [hrc]
      exact Nat.mod_lt _ (by omega)
    have hp : (if lg.curReadRec ≠ 0 then lg.curReadRec - 1 else recs - 1) =
        (lg.curReadRec + recs - 1) % recs := prevIdx_eq (by omega) hrc_lt
    have hcv : (lg.curReadRec + recs - 1) % recs = (lg.curRec + (t - 1)) % recs := by
      rw [hrc, show (lg.curRec + t) % recs + recs - 1 =
        (lg.curRec + t) % recs + (recs - 1) from by omega, Nat.mod_add_mod,
        show lg.curRec + t + (recs - 1) = lg.curRec + (t - 1) + recs from by omega,
        Nat.add_mod_right]
    by_cases hone : t = 1
    · have hcand : (lg.curReadRec + recs - 1) % recs = lg.curRec := by
        rw [hcv, show t - 1 = 0 from by omega, Nat.add_zero, Nat.mod_eq_of_lt hwc]
      have ho : Log_ReadPrev m recs S base lg = (false, lg, none) := by
        unfold Log_ReadPrev
        rw [hp, if_pos hcand]
      rw [show t - 1 = 0 from by omega]
      simp only [prevChain]
      rw [ho]
      rfl
    · have hcand : (lg.curReadRec + recs - 1) % recs ≠ lg.curRec := by
        rw [hcv]
        intro heq
        have heq2 : (lg.curRec + (t - 1)) % recs = (lg.curRec + 0) % recs := by
          rw [Nat.add_zero, Nat.mod_eq_of_lt hwc]
          exact heq
        have := mod_add_cancel (show t - 1 < recs by omega)
          (show 0 < recs by omega) heq2
        omega
      have ho : Log_ReadPrev m recs S base lg =
          (true, { lg with curReadRec := (lg.curReadRec + recs - 1) % recs },
            some (Log_ReadRec m S base ((lg.curReadRec + recs - 1) % recs))) := by
        unfold Log_ReadPrev
        rw [hp, if_neg hcand]
      simp only [prevChain]
      rw [ho]
      simp only
      rw [hcv]
      rw [ih (t - 1) { lg with curReadRec := (lg.curRec + (t - 1)) % recs }
        hwc (by omega) (by omega) rfl (by omega)]
      simp only
      apply List.ext_getElem
      · simp only [List.length_cons, List.length_map, List.length_range]
        omega
      · intro n h1 h2
        simp only [List.length_cons, List.length_map, List.length_range] at h1 h2
        cases n with
        | zero =>
          simp only [List.getElem_cons_zero, List.getElem_map, List.getElem_range]
          try rfl
          try (congr 1; congr 1; omega)
        | succ k =>
          simp only [List.getElem_cons_succ, List.getElem_map, List.getElem_range]
          try rfl
          try (congr 1; congr 1; omega)

theorem firstThenNexts_spec (m : Mem) (recs S base : Nat) (h2r : 2 ≤ recs)
    (hr255 : recs ≤ 255) (lg : LogSt) (hwc : lg.curRec < recs) (fuel : Nat)
    (hfuel : recs - 2 ≤ fuel) :
    firstThenNexts m recs S base lg fuel =
      (List.range (recs - 1)).map
        (fun j => Log_ReadRec m S base ((lg.curRec + 1 + j) % recs)) := by
  unfold firstThenNexts Log_ReadFirst
  rw [bump_eq h2r hr255 hwc]
  simp only
  rw [nextChain_spec m recs S base h2r hr255 fuel 1
    { lg with curReadRec := (lg.curRec + 1) % recs } hwc (by omega) (by omega) rfl
    (by omega)]
  simp only
  apply List.ext_getElem
  · simp only [List.length_cons, List.length_map, List.length_range]
    omega
  · intro n h1 h2
    simp only [List.length_cons, List.length_map, List.length_range] at h1 h2
    cases n with
    | zero =>
      simp only [List.getElem_cons_zero, List.getElem_map, List.getElem_range]
      try rfl
      try (congr 1; congr 1; omega)
    | succ k =>
      simp only [List.getElem_cons_succ, List.getElem_map, List.getElem_range]
      try rfl
      try (congr 1; congr 1; omega)

theorem lastThenPrevs_spec (m : Mem) (recs S base : Nat) (h2r : 2 ≤ recs)
    (hr255 : recs ≤ 255) (lg : LogSt) (hwc : lg.curRec < recs) (fuel : Nat)
    (hfuel : recs - 2 ≤ fuel) :
    lastThenPrevs m recs S base lg fuel =
      (List.range (recs - 1)).map
        (fun j => Log_ReadRec m S base ((lg.curRec + recs - 1 - j) % recs)) := by
  unfold lastThenPrevs Log_ReadLast
  rw [@prevIdx_eq recs lg.curRec (by omega) hwc]
  simp only
  rw [prevChain_spec m recs S base h2r hr255 fuel (recs - 1)
    { lg with curReadRec := (lg.curRec + recs - 1) % recs } hwc (by omega) (by omega)
    (by show (lg.curRec + recs - 1) % recs = (lg.curRec + (recs - 1)) % recs
        rw [show lg.curRec + recs - 1 = lg.curRec + (recs - 1) from by omega])
    (by omega)]
  simp only
  apply List.ext_getElem
  · simp only [List.length_cons, List.length_map, List.length_range]
    omega
  · intro n h1 h2
    simp only [List.length_cons, List.length_map, List.length_range] at h1 h2
    cases n with
    | zero =>
      simp only [List.getElem_cons_zero, List.getElem_map, List.getElem_range]
      try rfl
      try (congr 1; congr 1; omega)
    | succ k =>
      simp only [List.getElem_cons_succ, List.getElem_map, List.getElem_range]
      try rfl
      try (congr 1; congr 1; omega)

theorem chains_reverse (m : Mem) (recs S base wc : Nat) :
    (List.range (recs - 1)).map
        (fun j => Log_ReadRec m S base ((wc + recs - 1 - j) % recs)) =
      ((List.range (recs - 1)).map
        (fun j => Log_ReadRec m S base ((wc + 1 + j) % recs))).reverse := by
  apply List.ext_getElem
  · simp
  · intro n h1 h2
    simp only [List.getElem_reverse, List.getElem_map, List.getElem_range,
      List.length_map, List.length_range] at h1 h2 ⊢
    try rfl
    try (congr 1; congr 1; omega)

/-! ### Validity of the state reconstructed by the initialization scan -/

theorem initScan_some_bound (m : Mem) (S base f : Nat) :
    ∀ (fuel cr c : Nat), (initScan m S base f cr fuel).1 = some c →
      cr ≤ c ∧ c < cr + fuel := by
  intro fuel
  induction fuel with
  | zero =>
    intro cr c h
    exact absurd h (by simp [initScan])
  | succ fuel ih =>
    intro cr c h
    unfold initScan at h
    by_cases hc : f ^^^ Log_ReadFlag m ((base + (cr + 1) * S) % 65536) ≠ 0
    · rw [if_pos hc] at h
      dsimp only at h
      simp only [Option.some.injEq] at h
      omega
    · rw [if_neg hc] at h
      dsimp only at h
      have := ih (cr + 1) c h
      omega

theorem initLog_valid (m : Mem) (recs S base : Nat) (h2r : 2 ≤ recs) :
    (Log_InitLog m recs S base).curRec < recs ∧
    ((Log_InitLog m recs S base).curFlag = 0 ∨
      (Log_InitLog m recs S base).curFlag = 128) := by
  unfold Log_InitLog Log_InitLogFull
  rcases hscan : (initScan m S base (Log_ReadFlag m ((base + S) % 65536)) 1 (recs - 1)).1
    with _ | cr
  · simp only [hscan]
    refine ⟨by omega, ?_⟩
    rcases readFlag_cases m ((base + S) % 65536) with h | h <;> rw [h]
    · right; decide
    · left; decide
  · simp only [hscan]
    have hb := initScan_some_bound m S base _ (recs - 1) 1 cr hscan
    exact ⟨by omega, readFlag_cases m ((base + S) % 65536)⟩

/-- C3: after writing `k < N` records into a freshly-scanned log, repeated
`Log_ReadFirst`/`Log_ReadNext` delivers exactly `N - 1` records: the
surviving old records of the prior medium in ring order followed by the `k`
new records in write order; and `Log_ReadLast`/`Log_ReadPrev` delivers
exactly the same records reversed. -/
theorem c3_traversal_after_writes (recs S base : Nat) (ss : List (List Nat))
    (m0 : Mem) (lg0 : LogSt) (w0 : WrSt)
    (h2r : 2 ≤ recs) (hr255 : recs ≤ 255) (h2S : 2 ≤ S) (hS255 : S ≤ 255)
    (h65 : base + recs * S < 65536) (hk : ss.length < recs)
    (hlg : lg0 = Log_InitLog m0 recs S base) (hidle : w0.a = 0) :
    (firstThenNexts (runTransfers recs S base ss lg0 w0 m0).2.2 recs S base
        (runTransfers recs S base ss lg0 w0 m0).1 recs).length = recs - 1 ∧
    firstThenNexts (runTransfers recs S base ss lg0 w0 m0).2.2 recs S base
        (runTransfers recs S base ss lg0 w0 m0).1 recs =
      (List.range (recs - 1 - ss.length)).map
        (fun j => Log_ReadRec m0 S base ((lg0.curRec + ss.length + 1 + j) % recs)) ++
      ss.map (writtenRec S) ∧
    lastThenPrevs (runTransfers recs S base ss lg0 w0 m0).2.2 recs S base
        (runTransfers recs S base ss lg0 w0 m0).1 recs =
      (firstThenNexts (runTransfers recs S base ss lg0 w0 m0).2.2 recs S base
        (runTransfers recs S base ss lg0 w0 m0).1 recs).reverse := by
  subst hlg
  obtain ⟨hwc0, hflag0⟩ := initLog_valid m0 recs S base h2r
  obtain ⟨hcur, hflagF, hidleF, hframe, hwritten⟩ :=
    runTransfers_spec recs S base h2r hr255 h2S hS255 h65 ss
      (Log_InitLog m0 recs S base) w0 m0 hwc0 hflag0 (Or.inl hidle) (by omega)
  have hcur_lt :
      (runTransfers recs S base ss (Log_InitLog m0 recs S base) w0 m0).1.curRec
        < recs := by
    rw [hcur]
    exact Nat.mod_lt _ (by omega)
  have hfwd := firstThenNexts_spec
    (runTransfers recs S base ss (Log_InitLog m0 recs S base) w0 m0).2.2 recs S base
    h2r hr255 (runTransfers recs S base ss (Log_InitLog m0 recs S base) w0 m0).1
    hcur_lt recs (by omega)
  have hbwd := lastThenPrevs_spec
    (runTransfers recs S base ss (Log_InitLog m0 recs S base) w0 m0).2.2 recs S base
    h2r hr255 (runTransfers recs S base ss (Log_InitLog m0 recs S base) w0 m0).1
    hcur_lt recs (by omega)
  refine ⟨?_, ?_, ?_⟩
  · rw [hfwd]
    simp
  · rw [hfwd]
    apply List.ext_getElem
    · simp only [List.length_map, List.length_range, List.length_append]
      omega
    · intro n hn1 hn2
      simp only [List.length_map, List.length_range] at hn1
      simp only [List.getElem_map, List.getElem_range]
      rw [hcur]
      have hidx : (((Log_InitLog m0 recs S base).curRec + ss.length) % recs + 1 + n)
          % recs =
          ((Log_InitLog m0 recs S base).curRec + ss.length + 1 + n) % recs := by
        rw [Nat.add_assoc, Nat.mod_add_mod, ← Nat.add_assoc]
      rw [hidx]
      by_cases hcase : n < recs - 1 - ss.length
      · rw [List.getElem_append_left
          (by simp only [List.length_map, List.length_range]; omega)]
        simp only [List.getElem_map, List.getElem_range]
        apply hframe
        · exact Nat.mod_lt _ (by omega)
        · intro j hj heq
          have heq2 : ((Log_InitLog m0 recs S base).curRec + (ss.length + 1 + n))
              % recs = ((Log_InitLog m0 recs S base).curRec + j) % recs := by
            rw [← heq]
            congr 1
            omega
          have := mod_add_cancel (show ss.length + 1 + n < recs by omega)
            (show j < recs by omega) heq2
          omega
      · rw [List.getElem_append_right
          (by simp only [List.length_map, List.length_range]; omega)]
        simp only [List.getElem_map, List.length_map, List.length_range]
        have ht : (Log_InitLog m0 recs S base).curRec + ss.length + 1 + n =
            (Log_InitLog m0 recs S base).curRec + (n - (recs - 1 - ss.length)) + recs
            := by omega
        rw [ht, Nat.add_mod_right]
        rw [hwritten (n - (recs - 1 - ss.length)) (by omega)]
        congr 1
        rw [List.getD_eq_getElem?_getD, List.getElem?_eq_getElem (by omega)]
        rfl
  · rw [hbwd, hfwd]
    exact chains_reverse _ recs S base _

/-- Witness for C3 at `N = 3`, `S = 2`, `base = 0`, all-zero medium, one
record written after a fresh scan: the forward traversal delivers
`N - 1 = 2` records and the backward traversal delivers their reverse. -/
theorem c3_traversal_after_writes_witness :
    (firstThenNexts
        (runTransfers 3 2 0 [[5, 6]] (Log_InitLog (fun _ => 0) 3 2 0) ⟨0, 0, []⟩
          (fun _ => 0)).2.2 3 2 0
        (runTransfers 3 2 0 [[5, 6]] (Log_InitLog (fun _ => 0) 3 2 0) ⟨0, 0, []⟩
          (fun _ => 0)).1 3).length = 3 - 1 ∧
    lastThenPrevs
        (runTransfers 3 2 0 [[5, 6]] (Log_InitLog (fun _ => 0) 3 2 0) ⟨0, 0, []⟩
          (fun _ => 0)).2.2 3 2 0
        (runTransfers 3 2 0 [[5, 6]] (Log_InitLog (fun _ => 0) 3 2 0) ⟨0, 0, []⟩
          (fun _ => 0)).1 3 =
      (firstThenNexts
        (runTransfers 3 2 0 [[5, 6]] (Log_InitLog (fun _ => 0) 3 2 0) ⟨0, 0, []⟩
          (fun _ => 0)).2.2 3 2 0
        (runTransfers 3 2 0 [[5, 6]] (Log_InitLog (fun _ => 0) 3 2 0) ⟨0, 0, []⟩
          (fun _ => 0)).1 3).reverse := by
  have h := c3_traversal_after_writes 3 2 0 [[5, 6]] (fun _ => 0)
    (Log_InitLog (fun _ => 0) 3 2 0) ⟨0, 0, []⟩ (by decide) (by decide) (by decide)
    (by decide) (by decide) (by decide) rfl rfl
  exact ⟨h.1, h.2.2⟩

/-- C5: starting from any consistent log state, after exactly `N` completed
transfers the generation flag has flipped exactly once - the final flag is
the initial flag with bit 7 toggled and exactly one of the `N` transfers
changed the flag - and the set of readable slots (all slot indices other
than the write cursor) still has cardinality `N - 1`. -/
theorem c5_wrap_flips_flag_once (recs S base : Nat) (ss : List (List Nat)) (m0 : Mem)
    (lg0 : LogSt) (w0 : WrSt) (h2r : 2 ≤ recs) (hr255 : recs ≤ 255) (h2S : 2 ≤ S)
    (hS255 : S ≤ 255) (h65 : base + recs * S < 65536) (hwc : lg0.curRec < recs)
    (hflag : lg0.curFlag = 0 ∨ lg0.curFlag = 128) (hidle : w0.a = 0 ∨ w0.i = S)
    (hlen : ss.length = recs) :
    (runTransfers recs S base ss lg0 w0 m0).1.curFlag = lg0.curFlag ^^^ 128 ∧
    (∃! n, n < recs ∧
      (runTransfers recs S base (ss.take (n + 1)) lg0 w0 m0).1.curFlag ≠
        (runTransfers recs S base (ss.take n) lg0 w0 m0).1.curFlag) ∧
    ((Finset.range recs).filter
        (fun r => r ≠ (runTransfers recs S base ss lg0 w0 m0).1.curRec)).card =
      recs - 1 := by
  have hspec := runTransfers_spec recs S base h2r hr255 h2S hS255 h65 ss lg0 w0 m0
    hwc hflag hidle (by omega)
  have hflagAt : ∀ n, n ≤ recs →
      (runTransfers recs S base (ss.take n) lg0 w0 m0).1.curFlag =
        (if lg0.curRec + n < recs then lg0.curFlag else lg0.curFlag ^^^ 128) := by
    intro n hn
    have hlt : (ss.take n).length = n := by
      rw [List.length_take]
      omega
    have h := runTransfers_spec recs S base h2r hr255 h2S hS255 h65 (ss.take n)
      lg0 w0 m0 hwc hflag hidle (by omega)
    rw [hlt] at h
    exact h.2.1
  refine ⟨?_, ?_, ?_⟩
  · rw [hspec.2.1, hlen, if_neg (by omega)]
  · refine ⟨recs - 1 - lg0.curRec, ⟨⟨by omega, ?_⟩, ?_⟩⟩
    · rw [hflagAt (recs - 1 - lg0.curRec) (by omega),
        hflagAt (recs - 1 - lg0.curRec + 1) (by omega),
        if_neg (show ¬(lg0.curRec + (recs - 1 - lg0.curRec + 1) < recs) from by omega),
        if_pos (show lg0.curRec + (recs - 1 - lg0.curRec) < recs from by omega)]
      rcases hflag with h | h <;> rw [h] <;> decide
    · intro y hy
      obtain ⟨hy1, hy2⟩ := hy
      rw [hflagAt (y + 1) (by omega), hflagAt y (by omega)] at hy2
      by_cases hc1 : lg0.curRec + y < recs
      · by_cases hc2 : lg0.curRec + (y + 1) < recs
        · rw [if_pos hc2, if_pos hc1] at hy2
          exact absurd rfl hy2
        · omega
      · rw [if_neg (by omega), if_neg hc1] at hy2
        exact absurd rfl hy2
  · have hcur : (runTransfers recs S base ss lg0 w0 m0).1.curRec < recs := by
      rw [hspec.1]
      exact Nat.mod_lt _ (by omega)
    rw [Finset.filter_ne', Finset.card_erase_of_mem (Finset.mem_range.mpr hcur),
      Finset.card_range]

/-- Witness for C5 at `N = 2`, `S = 2`, `base = 0`, two transfers from the
consistent state `⟨0, 0, 1⟩` with an idle writer over an all-zero medium:
the flag ends up flipped and the readable window still has `N - 1 = 1`
slot. -/
theorem c5_wrap_flips_flag_once_witness :
    (runTransfers 2 2 0 [[1, 2], [3, 4]] ⟨0, 0, 1⟩ ⟨0, 0, []⟩ (fun _ => 0)).1.curFlag =
      0 ^^^ 128 ∧
    ((Finset.range 2).filter
        (fun r => r ≠ (runTransfers 2 2 0 [[1, 2], [3, 4]] ⟨0, 0, 1⟩ ⟨0, 0, []⟩
          (fun _ => 0)).1.curRec)).card = 2 - 1 := by
  have h := c5_wrap_flips_flag_once 2 2 0 [[1, 2], [3, 4]] (fun _ => 0) ⟨0, 0, 1⟩
    ⟨0, 0, []⟩ (by decide) (by decide) (by decide) (by decide) (by decide) (by decide)
    (Or.inl rfl) (Or.inl rfl) (by decide)
  exact ⟨h.1, h.2.2⟩

/-- C6 amended: a busy invocation issues no write; a ready invocation issues
exactly one byte write when a transfer has unissued bytes (`a ≠ 0`, `i ≠ S`)
or a source payload is supplied, and none when a null-source status probe
finds the writer idle or done-pending.  A full record transfer issues its
`S` bytes over exactly `S` ready invocations: the starting call and each of
the `S - 1` following ready polls issue exactly one write each, after which
the byte offset is `S`. -/
theorem c6_write_issue_counts (recs S base : Nat) (ready : Bool)
    (src : Option (List Nat)) (s : List Nat) (k : Nat) (lg : LogSt) (w : WrSt)
    (m : Mem) (h2r : 2 ≤ recs) (hr255 : recs ≤ 255) (h2S : 2 ≤ S) (hS255 : S ≤ 255)
    (h65 : base + recs * S < 65536) (hwc : lg.curRec < recs)
    (hidle : w.a = 0 ∨ w.i = S) (hk : k < S - 1) :
    ((Log_NoblockingWrite recs S base ready src lg w m).writes.length =
      if ready then (if w.a ≠ 0 ∧ w.i ≠ S then 1 else if src.isSome then 1 else 0)
      else 0) ∧
    (Log_NoblockingWrite recs S base true (some s) lg w m).writes.length = 1 ∧
    (Log_NoblockingWrite recs S base true none
        (pollN recs S base k (Log_NoblockingWrite recs S base true (some s) lg w m).lg
          (Log_NoblockingWrite recs S base true (some s) lg w m).w
          (Log_NoblockingWrite recs S base true (some s) lg w m).m).1
        (pollN recs S base k (Log_NoblockingWrite recs S base true (some s) lg w m).lg
          (Log_NoblockingWrite recs S base true (some s) lg w m).w
          (Log_NoblockingWrite recs S base true (some s) lg w m).m).2.1
        (pollN recs S base k (Log_NoblockingWrite recs S base true (some s) lg w m).lg
          (Log_NoblockingWrite recs S base true (some s) lg w m).w
          (Log_NoblockingWrite recs S base true (some s) lg w m).m).2.2).writes.length
      = 1 ∧
    (runTransfer recs S base s lg w m).2.1.i = S := by
  have hcond : ¬(w.a ≠ 0 ∧ w.i ≠ S) := by
    rcases hidle with h | h
    · intro hc; exact hc.1 h
    · intro hc; exact hc.2 h
  have hone : ∀ (lg2 : LogSt) (w2 : WrSt) (m2 : Mem), w2.a ≠ 0 → w2.i ≠ S →
      (Log_NoblockingWrite recs S base true none lg2 w2 m2).writes.length = 1 := by
    intro lg2 w2 m2 ha hi
    by_cases hf : w2.i = S - 1
    · rw [write_step_final recs S base none lg2 w2 m2 ha hi hf]
      rfl
    · rw [write_step_mid recs S base none lg2 w2 m2 ha hi hf]
      rfl
  refine ⟨?_, ?_, ?_, ?_⟩
  · cases ready with
    | false => rfl
    | true =>
      by_cases hc : w.a ≠ 0 ∧ w.i ≠ S
      · by_cases hf : w.i = S - 1
        · rw [write_step_final recs S base src lg w m hc.1 hc.2 hf]
          simp [hc]
        · rw [write_step_mid recs S base src lg w m hc.1 hc.2 hf]
          simp [hc]
      · cases src with
        | none =>
          rw [write_step_probe recs S base lg w m hc]
          simp [hc]
        | some s2 =>
          rw [write_step_start recs S base s2 lg w m hc]
          simp [hc]
  · rw [write_step_start recs S base s lg w m hcond]
    rfl
  · have hmc : lg.curRec * S = S * lg.curRec := Nat.mul_comm _ _
    have hA0b : base + S * lg.curRec < 65536 := by
      have h := @slot_addr_lt recs S base lg.curRec 0 h65 hwc (by omega)
      omega
    have hA1b : base + S * lg.curRec + 1 < 65536 := by
      have h := @slot_addr_lt recs S base lg.curRec 1 h65 hwc (by omega)
      omega
    rw [write_step_start recs S base s lg w m hcond]
    simp only
    rw [Nat.mod_eq_of_lt hA0b, Nat.mod_eq_of_lt hA1b]
    rw [pollN_mid recs S base h2S hS255 h65 lg hwc (1 :: (s.drop 1).take (S - 1))
      k 1 _ (by omega) (by omega)]
    simp only
    exact hone _ _ _ (by show base + S * lg.curRec + 1 + k ≠ 0; omega)
      (by show 1 + k ≠ S; omega)
  · rw [runTransfer_spec recs S base h2r hr255 h2S hS255 h65 s lg w m hwc hidle]

/-- Witness for C6 at `N = 2`, `S = 3`, `base = 0`, idle writer: the ready
status probe issues no write, the starting call issues one, and after the
start plus `S - 1 = 2` ready polls the byte offset is `S = 3` (the record
fully issued over 3 ready invocations). -/
theorem c6_write_issue_counts_witness :
    (Log_NoblockingWrite 2 3 0 true none ⟨0, 0, 1⟩ ⟨0, 0, []⟩ (fun _ => 0)).writes.length
      = 0 ∧
    (Log_NoblockingWrite 2 3 0 true (some [1, 2, 3]) ⟨0, 0, 1⟩ ⟨0, 0, []⟩
      (fun _ => 0)).writes.length = 1 ∧
    (runTransfer 2 3 0 [1, 2, 3] ⟨0, 0, 1⟩ ⟨0, 0, []⟩ (fun _ => 0)).2.1.i = 3 := by
  have h := c6_write_issue_counts 2 3 0 true none [1, 2, 3] 1 ⟨0, 0, 1⟩ ⟨0, 0, []⟩
    (fun _ => 0) (by decide) (by decide) (by decide) (by decide) (by decide)
    (by decide) (Or.inl rfl) (by decide)
  refine ⟨?_, h.2.1, h.2.2.2⟩
  rw [h.1]
  decide

/-! ### Claim theorems -/

/-- C9: whenever the medium reports not ready, `Log_NoblockingWrite` returns
0 immediately and has no side effects: no byte write is issued and the log
state, the writer state and the medium are returned unchanged. -/
theorem c9_busy_call_is_noop (recs S base : Nat) (src : Option (List Nat))
    (lg : LogSt) (w : WrSt) (m : Mem) :
    Log_NoblockingWrite recs S base false src lg w m = ⟨false, lg, w, m, []⟩ := rfl

/-- C10: for every slot index and any medium contents, a delivered record is
exactly `S` bytes: the slot's medium bytes with bit 7 of the final byte
cleared, so the delivered last byte is below `0x80`; and each of the read
operations that delivers a record (`Log_ReadFirst`, `Log_ReadLast`,
`Log_ReadCur`, and `Log_ReadNext`/`Log_ReadPrev` on success) hands out
exactly such a decoded slot. -/
theorem c10_decode_masks_top_bit (m : Mem) (recs S base r : Nat) (lg : LogSt)
    (hS : 2 ≤ S) :
    (Log_ReadRec m S base r).length = S ∧
    (∀ k, k < S - 1 →
      (Log_ReadRec m S base r).getD k 0 = ReadEE m ((base + r * S + k) % 65536)) ∧
    (Log_ReadRec m S base r).getD (S - 1) 0 =
      0x7f &&& ReadEE m ((base + r * S + (S - 1)) % 65536) ∧
    (Log_ReadRec m S base r).getD (S - 1) 0 < 0x80 ∧
    (Log_ReadFirst m recs S base lg).2 = Log_ReadRec m S base (bump recs lg.curRec) ∧
    (Log_ReadLast m recs S base lg).2 =
      Log_ReadRec m S base (if lg.curRec ≠ 0 then lg.curRec - 1 else recs - 1) ∧
    Log_ReadCur m S base lg = Log_ReadRec m S base lg.curReadRec ∧
    (∀ ok lg2 b, Log_ReadNext m recs S base lg = (ok, lg2, some b) →
      b = Log_ReadRec m S base lg2.curReadRec) ∧
    (∀ ok lg2 b, Log_ReadPrev m recs S base lg = (ok, lg2, some b) →
      b = Log_ReadRec m S base lg2.curReadRec) := by
  have hlen : (Log_ReadRec m S base r).length = S := by
    unfold Log_ReadRec
    simp
    omega
  have hleft : ((List.range (S - 1)).map
      (fun k => ReadEE m ((base + r * S + k) % 65536))).length = S - 1 := by
    simp
  refine ⟨hlen, ?_, ?_, ?_, rfl, rfl, rfl, ?_, ?_⟩
  · intro k hk
    unfold Log_ReadRec
    rw [List.getD_eq_getElem?_getD, List.getElem?_append, if_pos (by simpa using hk)]
    simp [hk]
  · unfold Log_ReadRec
    rw [List.getD_eq_getElem?_getD, List.getElem?_append, if_neg (by simp)]
    simp
  · have h2 : (Log_ReadRec m S base r).getD (S - 1) 0 =
        0x7f &&& ReadEE m ((base + r * S + (S - 1)) % 65536) := by
      unfold Log_ReadRec
      rw [List.getD_eq_getElem?_getD, List.getElem?_append, if_neg (by simp)]
      simp
    rw [h2]
    have h3 : (0x7f : Nat) &&& ReadEE m ((base + r * S + (S - 1)) % 65536) ≤ 0x7f :=
      Nat.and_le_left
    omega
  · intro ok lg2 b h
    unfold Log_ReadNext at h
    by_cases hc : bump recs lg.curReadRec = lg.curRec
    · rw [if_pos hc] at h
      simp at h
    · rw [if_neg hc] at h
      simp only [Prod.mk.injEq, Option.some.injEq] at h
      obtain ⟨-, hlg, hb⟩ := h
      rw [← hlg, ← hb]
  · intro ok lg2 b h
    unfold Log_ReadPrev at h
    by_cases hc : (if lg.curReadRec ≠ 0 then lg.curReadRec - 1 else recs - 1) = lg.curRec
    · rw [if_pos hc] at h
      simp at h
    · rw [if_neg hc] at h
      simp only [Prod.mk.injEq, Option.some.injEq] at h
      obtain ⟨-, hlg, hb⟩ := h
      rw [← hlg, ← hb]

/-- Witness for C10 at `m = fun _ => 255`, `N = 2`, `S = 2`, `base = 0`,
`r = 0`: the delivered record is `[255, 127]`, two bytes, the last one with
bit 7 cleared. -/
theorem c10_decode_masks_top_bit_witness :
    (2 ≤ 2) ∧
    (Log_ReadRec (fun _ => 255) 2 0 0).length = 2 ∧
    (Log_ReadRec (fun _ => 255) 2 0 0).getD 0 0 = ReadEE (fun _ => 255) ((0 + 0 * 2 + 0) % 65536) ∧
    (Log_ReadRec (fun _ => 255) 2 0 0).getD 1 0 < 0x80 := by
  have h := c10_decode_masks_top_bit (fun _ => 255) 2 2 0 0 ⟨0, 0, 1⟩ (by decide)
  exact ⟨by decide, h.1, h.2.1 0 (by decide), h.2.2.2.1⟩

/-- C4: on a valid log state, `Log_ReadNext` computes the candidate
`read_cursor + 1 (mod N)` and `Log_ReadPrev` the candidate
`read_cursor - 1 (mod N)`; if the candidate equals the write cursor the call
returns 0 and leaves the state unchanged with no record delivered, otherwise
it moves the read cursor to the candidate, delivers that slot's decoded
record, and returns 1. -/
theorem c4_readNext_readPrev_contract (m : Mem) (recs S base : Nat) (lg : LogSt)
    (h2 : 2 ≤ recs) (h255 : recs ≤ 255) (hrc : lg.curReadRec < recs) :
    ((lg.curReadRec + 1) % recs = lg.curRec →
        Log_ReadNext m recs S base lg = (false, lg, none)) ∧
    ((lg.curReadRec + 1) % recs ≠ lg.curRec →
        Log_ReadNext m recs S base lg =
          (true, { lg with curReadRec := (lg.curReadRec + 1) % recs },
            some (Log_ReadRec m S base ((lg.curReadRec + 1) % recs)))) ∧
    ((lg.curReadRec + recs - 1) % recs = lg.curRec →
        Log_ReadPrev m recs S base lg = (false, lg, none)) ∧
    ((lg.curReadRec + recs - 1) % recs ≠ lg.curRec →
        Log_ReadPrev m recs S base lg =
          (true, { lg with curReadRec := (lg.curReadRec + recs - 1) % recs },
            some (Log_ReadRec m S base ((lg.curReadRec + recs - 1) % recs)))) := by
  have hb : bump recs lg.curReadRec = (lg.curReadRec + 1) % recs := bump_eq h2 h255 hrc
  have hp : (if lg.curReadRec ≠ 0 then lg.curReadRec - 1 else recs - 1) =
      (lg.curReadRec + recs - 1) % recs := prevIdx_eq (by omega) hrc
  refine ⟨?_, ?_, ?_, ?_⟩
  · intro h
    unfold Log_ReadNext
    rw [hb, if_pos h]
  · intro h
    unfold Log_ReadNext
    rw [hb, if_neg h]
  · intro h
    unfold Log_ReadPrev
    rw [hp, if_pos h]
  · intro h
    unfold Log_ReadPrev
    rw [hp, if_neg h]

/-- Witness for C4 at `N = 3`, `lg = ⟨0, 0, 1⟩`: the next-candidate is 2,
distinct from the write cursor 0, so `Log_ReadNext` succeeds and moves the
read cursor to 2; the prev-candidate is 0, equal to the write cursor, so
`Log_ReadPrev` fails and changes nothing. -/
theorem c4_readNext_readPrev_contract_witness :
    ((1 + 1) % 3 ≠ 0 ∧
      Log_ReadNext (fun _ => 0) 3 2 0 ⟨0, 0, 1⟩ =
        (true, ⟨0, 0, 2⟩, some (Log_ReadRec (fun _ => 0) 2 0 2))) ∧
    ((1 + 3 - 1) % 3 = 0 ∧
      Log_ReadPrev (fun _ => 0) 3 2 0 ⟨0, 0, 1⟩ = (false, ⟨0, 0, 1⟩, none)) := by
  have h := c4_readNext_readPrev_contract (fun _ => 0) 3 2 0 ⟨0, 0, 1⟩
    (by decide) (by decide) (by decide)
  exact ⟨⟨by decide, h.2.1 (by decide)⟩, ⟨by decide, h.2.2.1 (by decide)⟩⟩

/-- C8: refuted on the code.  With `N = 2`, `S = 2`, `base = 0` the
initialization scan reads exactly the addresses 2 and 4.  The flag bytes
(address `base + j*S + (S-1)` for `j < N`) are 1 and 3, so neither read
addresses a flag byte, and address 4 lies outside the log's `N*S`-byte
region `[0, 4)`. -/
theorem c8_init_reads_wrong_addresses :
    Log_InitReads (fun _ => 0) 2 2 0 = [2, 4] ∧
    (2 : Nat) ≠ 0 + 0 * 2 + (2 - 1) ∧ (2 : Nat) ≠ 0 + 1 * 2 + (2 - 1) ∧
    (4 : Nat) ≠ 0 + 0 * 2 + (2 - 1) ∧ (4 : Nat) ≠ 0 + 1 * 2 + (2 - 1) ∧
    ¬((4 : Nat) < 0 + 2 * 2) := by decide

/-- C2: refuted on the code.  With `N = 2`, `S = 2`, `base = 0` and medium
holding `0x80` at address 1 and `0` elsewhere, the flag of slot 0 (bit 7 of
byte `S-1` of slot 0, address 1) is `0x80` and the flag of slot 1 (address 3)
is `0`: the slot flags mismatch at the first boundary, so per the claim the
scan must stop with `write_cursor = 1`.  The code's `Log_InitLog` instead
reads addresses 2 and 4, sees no mismatch, and returns the degenerate result
`write_cursor = 0`, `read_cursor = 1`. -/
theorem c2_init_scan_misreads_flags :
    Log_ReadFlag (fun a => if a = 1 then 0x80 else 0) (0 + 0 * 2 + (2 - 1)) = 0x80 ∧
    Log_ReadFlag (fun a => if a = 1 then 0x80 else 0) (0 + 1 * 2 + (2 - 1)) = 0 ∧
    Log_InitLog (fun a => if a = 1 then 0x80 else 0) 2 2 0 = ⟨0, 0x80, 1⟩ ∧
    (Log_InitLog (fun a => if a = 1 then 0x80 else 0) 2 2 0).curRec ≠ 1 := by decide

/-- C1: refuted on the code.  `N = 2`, `S = 2`, `base = 0`; the medium holds
`0x80` at address 1 (flag of slot 0) and `0` elsewhere, a consistent ring
whose flag boundary puts the write cursor at slot 1; the log state is
`⟨1, 0x80, 0⟩` accordingly.  A write of record `[0, 0]` into slot 1 is
started and halted after exactly 1 issued byte (`1 ≤ S - 1`).  Re-running
`Log_InitLog` on the resulting medium reconstructs `write_cursor = 0`, not 1
(the slot that was being written), and the immediately following
`Log_ReadFirst` moves the read cursor straight onto slot 1 - the
interrupted slot is inside the readable window. -/
theorem c1_recovery_fails_on_code :
    (Log_NoblockingWrite 2 2 0 true (some [0, 0]) ⟨1, 0x80, 0⟩ ⟨0, 0, []⟩
        (fun a => if a = 1 then 0x80 else 0)).writes.length = 1 ∧
    Log_InitLog (Log_NoblockingWrite 2 2 0 true (some [0, 0]) ⟨1, 0x80, 0⟩ ⟨0, 0, []⟩
        (fun a => if a = 1 then 0x80 else 0)).m 2 2 0 = ⟨0, 0x80, 1⟩ ∧
    (Log_ReadFirst (Log_NoblockingWrite 2 2 0 true (some [0, 0]) ⟨1, 0x80, 0⟩ ⟨0, 0, []⟩
        (fun a => if a = 1 then 0x80 else 0)).m 2 2 0
      (Log_InitLog (Log_NoblockingWrite 2 2 0 true (some [0, 0]) ⟨1, 0x80, 0⟩ ⟨0, 0, []⟩
        (fun a => if a = 1 then 0x80 else 0)).m 2 2 0)).1.curReadRec = 1 := by decide

/-- C6: counterexample to the claim as stated.  A ready invocation of
`Log_NoblockingWrite` with a null source while the writer is idle (a pure
status probe) issues zero medium byte-writes, not exactly one. -/
theorem c6_idle_probe_issues_no_write :
    (Log_NoblockingWrite 2 2 0 true none ⟨0, 0, 1⟩ ⟨0, 0, []⟩ (fun _ => 0)).writes.length
      = 0 := by decide

/-- C7: counterexample to the claim as stated.  In the scenario `N = 4`,
`S = 3`, all-zero medium, writing the record `[10,10,10]` three times and
then `[11,11,11]`: after `Log_ReadFirst` and one successful `Log_ReadNext`,
the next `Log_ReadNext` already delivers the `[B]` record `[11,11,11]` - not
a third `[A]` record as the claim requires - and the call after that fails,
so only `N - 1 = 3` records are delivered in total. -/
theorem c7_scenario_counterexample :
    (let m0 : Mem := fun _ => 0
     let lg0 := Log_InitLog m0 4 3 0
     let out := runTransfers 4 3 0 [[10, 10, 10], [10, 10, 10], [10, 10, 10], [11, 11, 11]]
       lg0 ⟨0, 0, []⟩ m0
     let o1 := Log_ReadFirst out.2.2 4 3 0 out.1
     let o2 := Log_ReadNext out.2.2 4 3 0 o1.1
     let o3 := Log_ReadNext out.2.2 4 3 0 o2.2.1
     let o4 := Log_ReadNext out.2.2 4 3 0 o3.2.1
     o1.2 = [10, 10, 10] ∧ o2.2.2 = some [10, 10, 10] ∧
       o3.2.2 = some [11, 11, 11] ∧ o3.2.2 ≠ some [10, 10, 10] ∧
       o4.1 = false ∧ o4.2.2 = none) := by decide

/-- C7 amended: in the scenario `N = 4`, `S = 3`, all-zero medium: after
`Log_InitLog` the write cursor is 0 (so the four writes fill slots 0,1,2,3);
after the first three writes the write cursor is 3 with the generation flag
unflipped, and after the 4th write the write cursor wraps to 0 and the
generation flag flips (`0x80` to `0`).  `Log_ReadFirst` then delivers the
record at slot 1 (an `[A]` record), and repeated `Log_ReadNext` delivers one
more `[A]`, then the new `[B]`, then fails: exactly `N - 1 = 3` records. -/
theorem c7_scenario_amended :
    (let m0 : Mem := fun _ => 0
     let lg0 := Log_InitLog m0 4 3 0
     let out3 := runTransfers 4 3 0 [[10, 10, 10], [10, 10, 10], [10, 10, 10]]
       lg0 ⟨0, 0, []⟩ m0
     let out := runTransfers 4 3 0 [[10, 10, 10], [10, 10, 10], [10, 10, 10], [11, 11, 11]]
       lg0 ⟨0, 0, []⟩ m0
     lg0.curRec = 0 ∧ lg0.curFlag = 0x80 ∧
       out3.1.curRec = 3 ∧ out3.1.curFlag = 0x80 ∧
       out.1.curRec = 0 ∧ out.1.curFlag = 0 ∧
       (Log_ReadFirst out.2.2 4 3 0 out.1).1.curReadRec = 1 ∧
       firstThenNexts out.2.2 4 3 0 out.1 4 =
         [[10, 10, 10], [10, 10, 10], [11, 11, 11]]) := by decide

end EELogs
